import Mathlib

/-!
# Verification of the clinic patient-record manager

Shallow embedding of the core persistence / backup layer of the
`Amithraj2025/clinic` patient manager (primary schema variant of
`PatientManagement`: `Medication = {id, description, date}`,
`Patient = {id, name, mobile, place, visitedDate, nextVisitDate,
medications, notes}`, IndexedDB-backed record store, manual and
scheduled JSON backup, file restore).

Conventions of the embedding:
* JS strings are `String`, JS integral numbers (`Date.now()` epoch
  millis, minutes, counters) are `Int` (or `Nat` for the monotone clock
  feeding id generation), JS booleans are `Bool`.
* A value stored in the IndexedDB object store, and a value produced by
  `JSON.parse`, is a `Json` tree.  `JSON.stringify` / `JSON.parse` are
  modelled as the identity on `Json`: textual round-trip fidelity is a
  property of the JSON format itself, not of this program.
* Stateful handlers become pure functions from the state they read to
  the state they write, with `Date.now()` passed in as an explicit
  argument.
-/

/-- A JSON value, as produced by `JSON.parse` and as stored in the
IndexedDB object store.  Numbers are integral in this application
(epoch milliseconds and counters), so `num` carries an `Int`. -/
inductive Json where
  | null : Json
  | boolean : Bool → Json
  | num : Int → Json
  | str : String → Json
  | arr : List Json → Json
  | obj : List (String × Json) → Json

/-- Field lookup in a JSON object field list (first binding wins, as in
a JS object, which cannot carry duplicate keys). -/
def jlookup : List (String × Json) → String → Option Json
  | [], _ => none
  | (k, v) :: rest, key => if k = key then some v else jlookup rest key

/-- Reading property `key` of a JSON value, JS-style: `undefined`
(`none`) on a non-object. -/
def recordField (j : Json) (key : String) : Option Json :=
  match j with
  | Json.obj fs => jlookup fs key
  | _ => none

/-- JS truthiness of a JSON value (used for `patient.medications || []`:
`null`, `false`, `0` and `""` are falsy; objects and arrays are truthy). -/
def jsTruthy : Json → Bool
  | Json.null => false
  | Json.boolean b => b
  | Json.num n => n != 0
  | Json.str s => s != ""
  | Json.arr _ => true
  | Json.obj _ => true

/-- Overriding one field of a JS object, as the spread
`\x7b...patient, medications: v\x7d` does: the first existing binding is
replaced in place, otherwise the binding is appended. -/
def setFields : List (String × Json) → String → Json → List (String × Json)
  | [], key, v => [(key, v)]
  | (k, w) :: rest, key, v =>
      if k = key then (key, v) :: rest else (k, w) :: setFields rest key v

/-- A medication record (primary schema variant):
`interface Medication \x7b id; description; date \x7d`. -/
structure Medication where
  id : String
  description : String
  date : String
deriving DecidableEq, Repr

/-- A patient record (primary schema variant):
`interface Patient \x7b id; name; mobile; place; visitedDate;
nextVisitDate; medications; notes \x7d`. -/
structure Patient where
  id : String
  name : String
  mobile : String
  place : String
  visitedDate : String
  nextVisitDate : String
  medications : List Medication
  notes : String
deriving DecidableEq, Repr

/-- The decimal string of a natural number, as produced by
`Date.now().toString()` (JS `Number.prototype.toString` with radix 10 on
an integral value).  Expressed through `Nat.digits` so that injectivity
is available. -/
def decimalString (n : Nat) : String :=
  if n = 0 then "0" else ((Nat.digits 10 n).reverse.map Nat.digitChar).asString

/-- JSON encoding of a `Medication`, as `JSON.stringify` lays out the
in-memory record. -/
def encodeMedication (m : Medication) : Json :=
  Json.obj [("id", Json.str m.id), ("description", Json.str m.description),
            ("date", Json.str m.date)]

/-- JSON encoding of a `Patient`, as `JSON.stringify` lays out the
in-memory record. -/
def encodePatient (p : Patient) : Json :=
  Json.obj [("id", Json.str p.id), ("name", Json.str p.name),
            ("mobile", Json.str p.mobile), ("place", Json.str p.place),
            ("visitedDate", Json.str p.visitedDate),
            ("nextVisitDate", Json.str p.nextVisitDate),
            ("medications", Json.arr (p.medications.map encodeMedication)),
            ("notes", Json.str p.notes)]

/-- Reading a stored JSON value back as a `Medication`: each of the
three fields of the data model must be present with a string value. -/
def decodeMedication (j : Json) : Option Medication :=
  match recordField j "id", recordField j "description", recordField j "date" with
  | some (Json.str i), some (Json.str de), some (Json.str da) =>
      some { id := i, description := de, date := da }
  | _, _, _ => none

/-- Reading a list of stored JSON values back as `Medication`s. -/
def decodeMedications : List Json → Option (List Medication)
  | [] => some []
  | j :: rest =>
      match decodeMedication j, decodeMedications rest with
      | some m, some ms => some (m :: ms)
      | _, _ => none

/-- Reading a stored JSON value back as a `Patient`: every field of the
data model (id, name, mobile, place, visitedDate, nextVisitDate,
medications, notes) must be present with a value of the right shape.
This is the field-level readback used to state losslessness of the
snapshot format. -/
def decodePatient (j : Json) : Option Patient :=
  match recordField j "id", recordField j "name", recordField j "mobile",
        recordField j "place", recordField j "visitedDate",
        recordField j "nextVisitDate", recordField j "medications",
        recordField j "notes" with
  | some (Json.str i), some (Json.str nm), some (Json.str mo),
    some (Json.str pl), some (Json.str vd), some (Json.str nv),
    some (Json.arr ms), some (Json.str no) =>
      match decodeMedications ms with
      | some meds =>
          some { id := i, name := nm, mobile := mo, place := pl,
                 visitedDate := vd, nextVisitDate := nv,
                 medications := meds, notes := no }
      | none => none
  | _, _, _, _, _, _, _, _ => none

/-- Reading a list of stored JSON values back as `Patient`s. -/
def decodePatients : List Json → Option (List Patient)
  | [] => some []
  | j :: rest =>
      match decodePatient j, decodePatients rest with
      | some p, some ps => some (p :: ps)
      | _, _ => none

/-- The schema normalization applied by `loadPatients` to every record
read from the object store: the spread
`\x7b...patient, medications: patient.medications || []\x7d` overrides the
`medications` field with the empty array when it is absent or falsy and
leaves every other field of the record untouched.  No other field (in
particular not `notes`) is defaulted. -/
def normalizeRecord : Json → Json
  | Json.obj fs =>
      let meds := match jlookup fs "medications" with
        | some v => if jsTruthy v then v else Json.arr []
        | none => Json.arr []
      Json.obj (setFields fs "medications" meds)
  | j => j

/-- The `savePatients` effect: the record store after a full-collection overwrite
(`store.clear()` followed by `store.add` of each in-memory record, all
inside one readwrite transaction). -/
def savePatients (ps : List Patient) : List Json :=
  ps.map encodePatient

/-- The key IndexedDB extracts from a value being `add`ed to the
`patients` store (`keyPath: 'id'`): property `id` of the value,
`undefined` (`none`) when the value is not an object or lacks the
property. -/
def storageKey (j : Json) : Option Json :=
  recordField j "id"

/-- Whether an extracted key is a valid IndexedDB key.  The store keys
produced by this application are strings (`Date.now().toString()`);
numbers are also valid keys.  (IndexedDB additionally accepts dates,
arrays and binary keys, none of which this application produces.) -/
def validKey : Json → Bool
  | Json.str _ => true
  | Json.num _ => true
  | _ => false

/-- IndexedDB key equality on the keys this application can produce. -/
def keyEq : Json → Json → Bool
  | Json.str a, Json.str b => a == b
  | Json.num a, Json.num b => a == b
  | _, _ => false

/-- The `data.forEach(patient => store.add(patient))` loop of
`restoreData`, with IndexedDB request semantics:

* a value with no extractable or no valid key makes `add` throw a
  `DataError` synchronously, stopping the loop (the exception lands in
  the surrounding `try/catch`);
* a value whose key duplicates an already queued one makes the `add`
  request fail asynchronously (`ConstraintError`); the loop continues,
  but the unhandled failed request will abort the whole transaction.

Returns the successfully queued values, whether the loop ran to
completion without a synchronous throw, and whether a duplicate key was
queued (in which case the transaction aborts and rolls back). -/
def addQueue : List Json → List Json → Bool → List Json × Bool × Bool
  | acc, [], dup => (acc, true, dup)
  | acc, j :: rest, dup =>
      match storageKey j with
      | some k =>
          if validKey k then
            if acc.any (fun q => match storageKey q with
                                 | some k2 => keyEq k2 k
                                 | none => false) then
              addQueue acc rest true
            else
              addQueue (acc ++ [j]) rest dup
          else (acc, false, dup)
      | none => (acc, false, dup)

/-- The `restoreData` handler: the effect of the import handler on the persisted
patient store.  `input` is the `JSON.parse` outcome of the file text
(`none` when parsing throws).

* Parse failure: the exception is caught before any store operation —
  the store is untouched and the error alert is shown (`false`).
* Parsed array: `store.clear()` is queued, then each element is `add`ed
  (see `addQueue`).  If a duplicate key was queued the transaction
  aborts, rolling back the clear; otherwise the transaction commits the
  clear plus every queued element — including the case where a
  mid-array synchronous `DataError` was caught, which commits a partial
  restore.
* Parsed non-array (number, string, object, ...): `store.clear()` is
  queued, then `data.forEach` throws `TypeError`; the catch block
  swallows it and the transaction commits the bare clear — the store
  ends up empty. -/
def restoreData (stored : List Json) (input : Option Json) : List Json × Bool :=
  match input with
  | none => (stored, false)
  | some (Json.arr items) =>
      let r := addQueue [] items false
      (if r.2.2 then stored else r.1, r.2.1)
  | some _ => ([], false)

/-- The serialized snapshot produced by `backupData` /
`performAutomaticBackup`: `JSON.stringify(data, null, 2)` of the full
store contents (modelled at the `Json` level). -/
def backupSnapshot (stored : List Json) : Json :=
  Json.arr stored

/-- The `addPatient` handler restricted to its effect on the in-memory
collection: validation (name, mobile and place must be non-empty, i.e.
truthy), then either the edit path (`editingId` set: map the matching
record to the draft with the id kept and the existing medications
kept) or the create path (append the draft with a fresh
`Date.now().toString()` id and empty medications).  The second
component reports whether the operation was accepted. -/
def addPatient (editingId : Option String) (newPatient : Patient) (now : Nat)
    (patients : List Patient) : List Patient × Bool :=
  if newPatient.name = "" ∨ newPatient.mobile = "" ∨ newPatient.place = "" then
    (patients, false)
  else
    match editingId with
    | some eid =>
        (patients.map (fun p =>
          if p.id = eid then
            { newPatient with id := eid, medications := p.medications }
          else p), true)
    | none =>
        let fresh := { newPatient with id := decimalString now, medications := [] }
        (patients ++ [fresh], true)

/-- The `addMedication` handler restricted to its effect on the
in-memory collection: validation (the description must be non-empty),
then the selected patient's medications are extended with the draft
under a fresh `Date.now().toString()` id. -/
def addMedication (selectedId : String) (newMedication : Medication) (now : Nat)
    (patients : List Patient) : List Patient × Bool :=
  if newMedication.description = "" then (patients, false)
  else
    (patients.map (fun p =>
      if p.id = selectedId then
        { p with medications :=
            p.medications ++ [{ newMedication with id := decimalString now }] }
      else p), true)

/-- The combined in-memory and persisted state of the patient
collection. -/
structure AppState where
  patients : List Patient
  stored : List Json

/-- The full `addPatient` handler: on validation failure it returns
before `setPatients` / `savePatients`, so neither representation
changes; on success both are updated with the new collection. -/
def addPatientApp (editingId : Option String) (draft : Patient) (now : Nat)
    (st : AppState) : AppState × Bool :=
  let r := addPatient editingId draft now st.patients
  if r.2 then ({ patients := r.1, stored := savePatients r.1 }, true)
  else (st, false)

/-- An add operation of the collection, with the `Date.now()` value it
observes. -/
inductive ClinicOp where
  | addP : Patient → Nat → ClinicOp
  | addM : String → Medication → Nat → ClinicOp

/-- The timestamp observed by an operation. -/
def opTime : ClinicOp → Nat
  | ClinicOp.addP _ n => n
  | ClinicOp.addM _ _ n => n

/-- Applying one add operation to the in-memory collection. -/
def applyOp (ps : List Patient) : ClinicOp → List Patient
  | ClinicOp.addP draft n => (addPatient none draft n ps).1
  | ClinicOp.addM pid draft n => (addMedication pid draft n ps).1

/-- Running a sequence of add operations from the empty collection. -/
def runOps (ops : List ClinicOp) : List Patient :=
  ops.foldl applyOp []

/-- Well-formedness of the collection relative to a clock bound: all
patient ids are distinct decimal timestamps below the clock, and within
each patient all medication ids are distinct decimal timestamps below
the clock. -/
def IdState (clock : Nat) (ps : List Patient) : Prop :=
  (ps.map Patient.id).Nodup ∧
  ∀ p ∈ ps, (∃ t, t < clock ∧ p.id = decimalString t) ∧
    (p.medications.map Medication.id).Nodup ∧
    ∀ m ∈ p.medications, ∃ t, t < clock ∧ m.id = decimalString t

/-- The `interface BackupConfig` record: enabled flag, interval in minutes, last
backup time in epoch millis, retained-backups bound. -/
structure BackupConfig where
  enabled : Bool
  interval : Int
  lastBackup : Int
  maxBackups : Int
deriving DecidableEq, Repr

/-- A backup history entry: timestamp and generated filename. -/
structure HistoryEntry where
  timestamp : Int
  filename : String
deriving DecidableEq, Repr

/-- The backup subsystem state: the `backupConfig` and `backupHistory`
React states. -/
structure BackupState where
  config : BackupConfig
  history : List HistoryEntry
deriving DecidableEq, Repr

/-- The initial `backupConfig` state:
`\x7b enabled: false, interval: 60, lastBackup: 0, maxBackups: 5 \x7d`. -/
def initialBackupConfig : BackupConfig :=
  { enabled := false, interval := 60, lastBackup := 0, maxBackups := 5 }

/-- Proleptic Gregorian civil date from a day count relative to
1970-01-01, as used by `Date.prototype.toISOString` (Hinnant's
civil-from-days algorithm; `Int.fdiv` is floor division). -/
def civilFromDays (z : Int) : Int × Int × Int :=
  let zz := z + 719468
  let era := Int.fdiv zz 146097
  let doe := zz - era * 146097
  let yoe := Int.fdiv (doe - Int.fdiv doe 1460 + Int.fdiv doe 36524
                       - Int.fdiv doe 146096) 365
  let doy := doe - (365 * yoe + Int.fdiv yoe 4 - Int.fdiv yoe 100)
  let mp := Int.fdiv (5 * doy + 2) 153
  let d := doy - Int.fdiv (153 * mp + 2) 5 + 1
  let m := mp + (if mp < 10 then 3 else -9)
  (yoe + era * 400 + (if m ≤ 2 then 1 else 0), m, d)

/-- Zero-padding to two digits, as in an ISO date. -/
def pad2 (n : Int) : String :=
  if n < 10 then "0" ++ toString n else toString n

/-- Zero-padding a year to four digits, as in an ISO date. -/
def padYear (y : Int) : String :=
  if y < 10 then "000" ++ toString y
  else if y < 100 then "00" ++ toString y
  else if y < 1000 then "0" ++ toString y
  else toString y

/-- The date part of `new Date(t).toISOString()`:
`toISOString().split('T')[0]`. -/
def isoDateOfMillis (t : Int) : String :=
  let days := Int.fdiv t 86400000
  let c := civilFromDays days
  padYear c.1 ++ "-" ++ pad2 c.2.1 ++ "-" ++ pad2 c.2.2

/-- The generated backup filename:
`patient-care-backup-$\x7bdate\x7d.json`. -/
def backupFilename (t : Int) : String :=
  "patient-care-backup-" ++ isoDateOfMillis t ++ ".json"

/-- JS `Array.prototype.slice(0, e)` with a possibly negative `e`, as
used in `backupHistory.slice(0, backupConfig.maxBackups - 1)`. -/
def jsSliceTo {α : Type} (l : List α) (e : Int) : List α :=
  let len : Int := l.length
  let stop := if e < 0 then max (len + e) 0 else min e len
  l.take stop.toNat

/-- The history/config effect of `backupData` (the `request.onsuccess`
callback): prepend a new `\x7btimestamp, filename\x7d` entry to the first
`maxBackups - 1` retained entries, then set `lastBackup` to the
timestamp. -/
def backupData (now : Int) (s : BackupState) : BackupState :=
  { config := { s.config with lastBackup := now },
    history := { timestamp := now, filename := backupFilename now } ::
               jsSliceTo s.history (s.config.maxBackups - 1) }

/-- The `performAutomaticBackup` callback: the source duplicates the body of
`backupData` inside a `useCallback`; the state effect is identical. -/
def performAutomaticBackup (now : Int) (s : BackupState) : BackupState :=
  backupData now s

/-- The `checkAndBackup` closure run by the timer: compute
`timeSinceLastBackup = now - lastBackup` and
`intervalInMs = interval * 60 * 1000`; when the former has reached the
latter, run `performAutomaticBackup`.  The flag records whether a
backup fired. -/
def checkAndBackup (now : Int) (s : BackupState) : BackupState × Bool :=
  let timeSinceLastBackup := now - s.config.lastBackup
  let intervalInMs := s.config.interval * 60 * 1000
  if intervalInMs ≤ timeSinceLastBackup then (performAutomaticBackup now s, true)
  else (s, false)

/-- One poll tick of the automatic-backup timer: the effect installs
the interval only when `backupConfig.enabled` (it returns early
otherwise), so a tick is a no-op when disabled. -/
def pollTick (now : Int) (s : BackupState) : BackupState × Bool :=
  if s.config.enabled then checkAndBackup now s else (s, false)

/-- A sequence of fired backups (`backupData` at each listed time). -/
def runBackups (times : List Int) (s : BackupState) : BackupState :=
  times.foldl (fun st t => backupData t st) s

/-- The `toggleAutomaticBackup` handler: flip `enabled`; when arming
(`!prev.enabled`), stamp `lastBackup` with the current time, otherwise
keep it. -/
def toggleAutomaticBackup (now : Int) (cfg : BackupConfig) : BackupConfig :=
  { cfg with enabled := !cfg.enabled,
             lastBackup := if !cfg.enabled then now else cfg.lastBackup }

/-- The `updateBackupInterval` handler: store the supplied number of minutes as-is
(the `min="1" max="1440"` attributes on the input element are advisory
UI hints only; no clamping happens in the handler). -/
def updateBackupInterval (minutes : Int) (cfg : BackupConfig) : BackupConfig :=
  { cfg with interval := minutes }

/-- The `maxBackups` settings `onChange` handler:
`setBackupConfig(prev => (\x7b...prev, maxBackups: Number(value)\x7d))` —
the supplied number is stored as-is, with no clamping. -/
def setMaxBackups (n : Int) (cfg : BackupConfig) : BackupConfig :=
  { cfg with maxBackups := n }

/-- A concrete patient used in counterexamples and witnesses. -/
def ashaPatient : Patient :=
  { id := "1700000000000", name := "Asha", mobile := "9999999999",
    place := "Kochi", visitedDate := "2024-01-01", nextVisitDate := "",
    medications := [], notes := "" }

/-- A concrete patient draft (no id yet) used in counterexamples and
witnesses. -/
def raviDraft : Patient :=
  { id := "", name := "Ravi", mobile := "8888888888", place := "Calicut",
    visitedDate := "2024-01-02", nextVisitDate := "", medications := [],
    notes := "" }

/-- A concrete legacy record (earlier schema: no `medications`, no
`notes` field) used in the normalization counterexample. -/
def legacyRecord : Json :=
  Json.obj [("id", Json.str "42"), ("name", Json.str "Asha"),
            ("mobile", Json.str "9999999999"), ("place", Json.str "Kochi"),
            ("visitedDate", Json.str "2020-01-01")]

/-! ## Serialization round-trip (C1) and import atomicity (C4) -/

/-- Decoding inverts encoding for a medication. -/
theorem decodeMedication_encodeMedication (m : Medication) :
    decodeMedication (encodeMedication m) = some m := by
  simp [decodeMedication, encodeMedication, recordField, jlookup]

/-- Decoding inverts encoding for a medication list. -/
theorem decodeMedications_map_encode (ms : List Medication) :
    decodeMedications (ms.map encodeMedication) = some ms := by
  induction ms with
  | nil => rfl
  | cons m ms ih => simp [decodeMedications, decodeMedication_encodeMedication, ih]

/-- Decoding inverts encoding for a patient: no field of the data model
is lost by serialization. -/
theorem decodePatient_encodePatient (p : Patient) :
    decodePatient (encodePatient p) = some p := by
  simp [decodePatient, encodePatient, recordField, jlookup,
        decodeMedications_map_encode]

/-- Decoding inverts encoding for the whole persisted collection. -/
theorem decodePatients_savePatients (ps : List Patient) :
    decodePatients (savePatients ps) = some ps := by
  induction ps with
  | nil => rfl
  | cons p ps ih =>
      simp only [savePatients, List.map_cons] at ih ⊢
      simp [decodePatients, decodePatient_encodePatient, ih]

/-- Once a duplicate key has been queued, the restore transaction is
doomed to abort, whatever comes later in the array. -/
theorem addQueue_dup (items : List Json) (acc : List Json) :
    (addQueue acc items true).2.2 = true := by
  induction items generalizing acc with
  | nil => rfl
  | cons j rest ih =>
      simp only [addQueue]
      cases h : storageKey j with
      | none => rfl
      | some k =>
          by_cases hv : validKey k
          · simp only [hv, if_true]
            by_cases ha : (acc.any fun q => match storageKey q with
                           | some k2 => keyEq k2 k
                           | none => false)
            · simp only [ha, if_true]; exact ih acc
            · simp only [ha, if_false]; exact ih (acc ++ [j])
          · simp only [Bool.not_eq_true] at hv
            simp [hv]

/-- If the restore loop over a list of encoded patients queues no
duplicate key, every record is queued in order and the loop completes. -/
theorem addQueue_encodes (P : List Patient) (acc : List Json)
    (h : (addQueue acc (P.map encodePatient) false).2.2 = false) :
    addQueue acc (P.map encodePatient) false =
      (acc ++ P.map encodePatient, true, false) := by
  induction P generalizing acc with
  | nil => simp [addQueue]
  | cons p P ih =>
      have hk : storageKey (encodePatient p) = some (Json.str p.id) := by
        simp [storageKey, encodePatient, recordField, jlookup]
      simp only [List.map_cons, addQueue, hk, validKey, if_true] at h ⊢
      by_cases ha : (acc.any fun q => match storageKey q with
                     | some k2 => keyEq k2 (Json.str p.id)
                     | none => false)
      · rw [if_pos ha] at h
        exact absurd (addQueue_dup (P.map encodePatient) acc) (by simp [h])
      · rw [if_neg ha] at h ⊢
        rw [ih (acc ++ [encodePatient p]) h]
        simp

/-- C1.  Exporting a snapshot of the persisted collection holding a
patient collection `P` and importing that snapshot back yields a
persisted collection equal to the one exported, and reading the
persisted records back field by field recovers exactly `P` — no loss in
id, name, mobile, place, visitedDate, nextVisitDate, medications or
notes. -/
theorem snapshot_export_import_roundtrip (P : List Patient) :
    (restoreData (savePatients P) (some (backupSnapshot (savePatients P)))).1 =
      savePatients P ∧
    decodePatients (savePatients P) = some P := by
  refine ⟨?_, decodePatients_savePatients P⟩
  show (restoreData (P.map encodePatient)
        (some (Json.arr (P.map encodePatient)))).1 = P.map encodePatient
  simp only [restoreData]
  by_cases h : (addQueue [] (P.map encodePatient) false).2.2 = true
  · simp [h]
  · have h2 := addQueue_encodes P [] (by simpa using h)
    simp [h2]

/-- C4 (code bug).  A restore file whose content parses but is not an
array — the concrete JSON text `"\x7b\x7d"` — wipes the store: the
`store.clear()` is queued before the shape is ever examined,
`data.forEach` then throws, the catch swallows the exception, and the
transaction commits the bare clear.  Starting from a store holding one
patient, the store afterwards is empty, not untouched as the claim
requires. -/
theorem restore_wrong_shape_wipes_store :
    restoreData (savePatients [ashaPatient]) (some (Json.obj [])) = ([], false) ∧
    savePatients [ashaPatient] ≠ [] :=
  ⟨rfl, by simp [savePatients]⟩

/-! ## Settings clamping (C5) and load normalization (C6) -/

/-- C5 counterexample.  The settings handlers perform no clamping: the
concrete update `updateBackupInterval 0` installs `interval = 0 < 1` in
the stored `BackupConfig`, and the `maxBackups` handler likewise
installs `0`, contradicting the claim that no settings operation can
install a value below 1. -/
theorem settings_accept_out_of_range :
    (updateBackupInterval 0 initialBackupConfig).interval < 1 ∧
    (setMaxBackups 0 initialBackupConfig).maxBackups < 1 :=
  ⟨by decide, by decide⟩

/-- C5 (amended).  The interval and max-backups settings handlers store
the supplied number verbatim — no clamping or rejection happens, and no
other configuration field is touched.  In particular values below 1 are
accepted (see `settings_accept_out_of_range`); the `min`/`max`
attributes on the inputs are advisory UI hints only. -/
theorem settings_store_value_verbatim (m : Int) (cfg : BackupConfig) :
    (updateBackupInterval m cfg).interval = m ∧
    (updateBackupInterval m cfg).enabled = cfg.enabled ∧
    (updateBackupInterval m cfg).lastBackup = cfg.lastBackup ∧
    (updateBackupInterval m cfg).maxBackups = cfg.maxBackups ∧
    (setMaxBackups m cfg).maxBackups = m ∧
    (setMaxBackups m cfg).enabled = cfg.enabled ∧
    (setMaxBackups m cfg).interval = cfg.interval ∧
    (setMaxBackups m cfg).lastBackup = cfg.lastBackup :=
  ⟨rfl, rfl, rfl, rfl, rfl, rfl, rfl, rfl⟩

/-- Looking up the field just overridden yields the new value. -/
theorem jlookup_setFields_self (fs : List (String × Json)) (key : String)
    (v : Json) : jlookup (setFields fs key v) key = some v := by
  induction fs with
  | nil => simp [setFields, jlookup]
  | cons kv rest ih =>
      obtain ⟨k, w⟩ := kv
      by_cases h : k = key
      · simp [setFields, h, jlookup]
      · simp [setFields, h, jlookup, ih]

/-- Overriding one field leaves every other field's lookup unchanged. -/
theorem jlookup_setFields_ne (fs : List (String × Json)) (key k2 : String)
    (v : Json) (h : k2 ≠ key) :
    jlookup (setFields fs key v) k2 = jlookup fs k2 := by
  induction fs with
  | nil =>
      have hne : key ≠ k2 := fun hh => h hh.symm
      simp [setFields, jlookup, hne]
  | cons kv rest ih =>
      obtain ⟨k, w⟩ := kv
      by_cases hk : k = key
      · subst hk
        have hne : k ≠ k2 := fun hh => h hh.symm
        simp [setFields, jlookup, hne]
      · by_cases hk2 : k = k2
        · subst hk2
          simp [setFields, hk, jlookup]
        · simp [setFields, hk, jlookup, hk2, ih]

/-- C6 counterexample.  Normalizing a legacy record that lacks both
later-schema fields does default `medications` to the empty array, but
leaves `notes` absent (`undefined`) — it is not substituted with the
empty string as the claim requires. -/
theorem normalize_leaves_notes_absent :
    recordField (normalizeRecord legacyRecord) "medications" =
      some (Json.arr []) ∧
    recordField (normalizeRecord legacyRecord) "notes" = none ∧
    recordField (normalizeRecord legacyRecord) "notes" ≠ some (Json.str "") := by
  refine ⟨rfl, rfl, ?_⟩
  intro h
  rw [show recordField (normalizeRecord legacyRecord) "notes" = none from rfl] at h
  exact Option.noConfusion h

/-- C6 (amended).  The normalization applied after load substitutes a
default only for the `medications` field: a record missing it gets the
empty array, and the field is present on every normalized record; every
other field — in particular a missing `notes` — is passed through
unchanged, not defaulted. -/
theorem normalize_defaults_medications_only (fs : List (String × Json))
    (k : String) (hk : k ≠ "medications") :
    recordField (normalizeRecord (Json.obj fs)) k = jlookup fs k ∧
    (jlookup fs "medications" = none →
      recordField (normalizeRecord (Json.obj fs)) "medications" =
        some (Json.arr [])) ∧
    (recordField (normalizeRecord (Json.obj fs)) "medications").isSome = true := by
  refine ⟨?_, ?_, ?_⟩
  · simp [normalizeRecord, recordField, jlookup_setFields_ne fs "medications" k _ hk]
  · intro h
    simp [normalizeRecord, recordField, h, jlookup_setFields_self]
  · simp [normalizeRecord, recordField, jlookup_setFields_self]

/-- Witness for `normalize_defaults_medications_only` at a concrete
record and field. -/
theorem normalize_defaults_medications_only_witness :
    recordField (normalizeRecord (Json.obj [("notes", Json.str "hi")])) "notes" =
      jlookup [("notes", Json.str "hi")] "notes" ∧
    (jlookup [("notes", Json.str "hi")] "medications" = none →
      recordField (normalizeRecord (Json.obj [("notes", Json.str "hi")]))
        "medications" = some (Json.arr [])) ∧
    (recordField (normalizeRecord (Json.obj [("notes", Json.str "hi")]))
      "medications").isSome = true :=
  normalize_defaults_medications_only [("notes", Json.str "hi")] "notes"
    (by decide)

/-! ## Validation (C9) and the edit path (C10) -/

/-- C9.  An add-patient request with an empty name, mobile or place is
rejected by validation before `setPatients` or `savePatients` runs: the
handler returns the state unchanged — in-memory and persisted alike —
and reports the failure (the user-facing alert). -/
theorem validation_failure_leaves_state (eid : Option String) (draft : Patient)
    (now : Nat) (st : AppState)
    (h : draft.name = "" ∨ draft.mobile = "" ∨ draft.place = "") :
    addPatientApp eid draft now st = (st, false) := by
  have h1 : addPatient eid draft now st.patients = (st.patients, false) := by
    unfold addPatient
    rw [if_pos h]
  simp [addPatientApp, h1]

/-- Witness for `validation_failure_leaves_state`: a concrete draft
with an empty name against a one-patient state. -/
theorem validation_failure_leaves_state_witness :
    addPatientApp none { raviDraft with name := "" } 5
      { patients := [ashaPatient], stored := savePatients [ashaPatient] } =
    ({ patients := [ashaPatient], stored := savePatients [ashaPatient] }, false) :=
  validation_failure_leaves_state none { raviDraft with name := "" } 5
    { patients := [ashaPatient], stored := savePatients [ashaPatient] }
    (Or.inl rfl)

/-- Zipping a list with its image pairs each element with its image. -/
theorem zip_self_map {α β : Type} (l : List α) (g : α → β) :
    l.zip (l.map g) = l.map (fun a => (a, g a)) := by
  induction l with
  | nil => rfl
  | cons a l ih => simp [ih]

/-- C10.  A successful edit (`editingId` set) keeps the collection's
size, and for the patient whose id matches: the stored medications are
kept unchanged — whatever the submitted draft's `medications` holds —
the id is preserved, and exactly the directly edited fields (name,
mobile, place, visitedDate, nextVisitDate, notes) are taken from the
draft; every other patient is untouched. -/
theorem edit_preserves_medications (ps : List Patient) (draft : Patient)
    (eid : String) (now : Nat)
    (hn : draft.name ≠ "") (hm : draft.mobile ≠ "") (hp : draft.place ≠ "") :
    (addPatient (some eid) draft now ps).1.length = ps.length ∧
    (addPatient (some eid) draft now ps).2 = true ∧
    ∀ pr ∈ ps.zip (addPatient (some eid) draft now ps).1,
      (pr.1.id = eid →
        pr.2.medications = pr.1.medications ∧
        pr.2.id = pr.1.id ∧
        pr.2.name = draft.name ∧
        pr.2.mobile = draft.mobile ∧
        pr.2.place = draft.place ∧
        pr.2.visitedDate = draft.visitedDate ∧
        pr.2.nextVisitDate = draft.nextVisitDate ∧
        pr.2.notes = draft.notes) ∧
      (pr.1.id ≠ eid → pr.2 = pr.1) := by
  have hcond : ¬ (draft.name = "" ∨ draft.mobile = "" ∨ draft.place = "") := by
    push_neg
    exact ⟨hn, hm, hp⟩
  have hdef : addPatient (some eid) draft now ps =
      (ps.map (fun p => if p.id = eid then
        { draft with id := eid, medications := p.medications } else p), true) := by
    unfold addPatient
    rw [if_neg hcond]
  rw [hdef]
  refine ⟨by simp, rfl, ?_⟩
  intro pr hpr
  rw [zip_self_map] at hpr
  obtain ⟨a, ha, rfl⟩ := List.mem_map.mp hpr
  by_cases hid : a.id = eid
  · refine ⟨fun _ => ?_, fun habs => absurd hid habs⟩
    rw [if_pos hid]
    exact ⟨rfl, hid.symm, rfl, rfl, rfl, rfl, rfl, rfl⟩
  · refine ⟨fun habs => absurd habs hid, fun _ => ?_⟩
    exact if_neg hid

/-- Witness for `edit_preserves_medications`: editing the only stored
patient with a draft carrying different field values. -/
theorem edit_preserves_medications_witness :
    (addPatient (some "1700000000000") raviDraft 7 [ashaPatient]).1.length =
      [ashaPatient].length ∧
    (addPatient (some "1700000000000") raviDraft 7 [ashaPatient]).2 = true ∧
    ∀ pr ∈ [ashaPatient].zip
        (addPatient (some "1700000000000") raviDraft 7 [ashaPatient]).1,
      (pr.1.id = "1700000000000" →
        pr.2.medications = pr.1.medications ∧
        pr.2.id = pr.1.id ∧
        pr.2.name = raviDraft.name ∧
        pr.2.mobile = raviDraft.mobile ∧
        pr.2.place = raviDraft.place ∧
        pr.2.visitedDate = raviDraft.visitedDate ∧
        pr.2.nextVisitDate = raviDraft.nextVisitDate ∧
        pr.2.notes = raviDraft.notes) ∧
      (pr.1.id ≠ "1700000000000" → pr.2 = pr.1) :=
  edit_preserves_medications [ashaPatient] raviDraft "1700000000000" 7
    (by decide) (by decide) (by decide)

/-! ## Backup history bound (C2), scheduler tick (C3), arming (C8) -/

/-- The retained slice of the history is a sublist of the history. -/
theorem jsSliceTo_sublist {α : Type} (l : List α) (e : Int) :
    List.Sublist (jsSliceTo l e) l := by
  simp only [jsSliceTo]
  exact List.take_sublist _ _

/-- For a non-negative slice bound the retained slice has at most that
many elements. -/
theorem length_jsSliceTo_le {α : Type} (l : List α) (e : Int) (he : 0 ≤ e) :
    ((jsSliceTo l e).length : Int) ≤ e := by
  simp only [jsSliceTo]
  rw [if_neg (by omega), List.length_take]
  omega

/-- C2.  Starting from any state whose history respects the bound and
the newest-first order and whose entries are no newer than
`lastBackup`, a sequence of backups at strictly increasing times —
provided `maxBackups ≥ 1` — keeps the history length at most
`maxBackups` and keeps the entries ordered newest-first: each backup
prepends its entry at the head and drops whatever lies beyond the
bound.  In particular this holds for every run from the initial empty
history. -/
theorem backup_history_bounded (ts : List Int) (s : BackupState)
    (hmax : 1 ≤ s.config.maxBackups)
    (hlen : (s.history.length : Int) ≤ s.config.maxBackups)
    (hpair : s.history.Pairwise (fun a b => b.timestamp ≤ a.timestamp))
    (hle : ∀ e ∈ s.history, e.timestamp ≤ s.config.lastBackup)
    (hchain : List.Chain' (· < ·) (s.config.lastBackup :: ts)) :
    ((runBackups ts s).history.length : Int) ≤ s.config.maxBackups ∧
    (runBackups ts s).history.Pairwise
      (fun a b => b.timestamp ≤ a.timestamp) := by
  induction ts generalizing s with
  | nil => exact ⟨hlen, hpair⟩
  | cons t ts ih =>
      have hstep : runBackups (t :: ts) s = runBackups ts (backupData t s) := rfl
      have hlt : s.config.lastBackup < t := (List.chain'_cons.mp hchain).1
      have hsub : List.Sublist (jsSliceTo s.history (s.config.maxBackups - 1))
          s.history :=
        jsSliceTo_sublist _ _
      have hslice : ((jsSliceTo s.history (s.config.maxBackups - 1)).length : Int) ≤
          s.config.maxBackups - 1 :=
        length_jsSliceTo_le _ _ (by omega)
      have hmem : ∀ e ∈ jsSliceTo s.history (s.config.maxBackups - 1),
          e.timestamp ≤ s.config.lastBackup :=
        fun e hemem => hle e (hsub.subset hemem)
      rw [hstep]
      refine ih (backupData t s) hmax ?_ ?_ ?_ ?_
      · show (((( { timestamp := t, filename := backupFilename t } : HistoryEntry) ::
          jsSliceTo s.history (s.config.maxBackups - 1)).length : Int)) ≤
          s.config.maxBackups
        rw [List.length_cons]
        omega
      · show ((( { timestamp := t, filename := backupFilename t } : HistoryEntry) ::
          jsSliceTo s.history (s.config.maxBackups - 1)).Pairwise
          (fun a b => b.timestamp ≤ a.timestamp))
        rw [List.pairwise_cons]
        exact ⟨fun e hemem => le_of_lt (lt_of_le_of_lt (hmem e hemem) hlt),
               hpair.sublist hsub⟩
      · intro e hemem
        show e.timestamp ≤ t
        rcases List.mem_cons.mp hemem with h1 | h1
        · rw [h1]
        · exact le_of_lt (lt_of_le_of_lt (hmem e h1) hlt)
      · exact (List.chain'_cons.mp hchain).2

/-- Witness for `backup_history_bounded`: two backups at times 100 and
200 from the initial configuration and the empty history. -/
theorem backup_history_bounded_witness :
    ((runBackups [100, 200]
        { config := initialBackupConfig, history := [] }).history.length : Int) ≤
      initialBackupConfig.maxBackups ∧
    (runBackups [100, 200]
        { config := initialBackupConfig, history := [] }).history.Pairwise
      (fun a b => b.timestamp ≤ a.timestamp) :=
  backup_history_bounded [100, 200]
    { config := initialBackupConfig, history := [] }
    (by decide) (by decide) List.Pairwise.nil (by simp)
    (by norm_num [List.chain'_cons, initialBackupConfig])

/-- C3.  While armed, a poll tick at time `now` fires the export
operation exactly when `now - lastBackup ≥ interval * 60000`; with
`interval = 1` minute and `lastBackup = now - 61000` the tick fires,
sets `lastBackup` to `now`, and prepends exactly one history entry
(truncating to the bound). -/
theorem scheduler_tick_fires_iff (s : BackupState) (now : Int)
    (henabled : s.config.enabled = true) :
    ((pollTick now s).2 = true ↔
      s.config.interval * 60000 ≤ now - s.config.lastBackup) ∧
    (s.config.interval = 1 → s.config.lastBackup = now - 61000 →
      (pollTick now s).2 = true ∧
      (pollTick now s).1.config.lastBackup = now ∧
      (pollTick now s).1.history =
        { timestamp := now, filename := backupFilename now } ::
          jsSliceTo s.history (s.config.maxBackups - 1)) := by
  have harith : s.config.interval * 60 * 1000 = s.config.interval * 60000 := by
    ring
  constructor
  · simp only [pollTick, henabled, if_true, checkAndBackup, harith]
    by_cases h : s.config.interval * 60000 ≤ now - s.config.lastBackup
    · simp [h]
    · simp [h]
  · intro h1 h2
    have hcond : s.config.interval * 60 * 1000 ≤ now - s.config.lastBackup := by
      rw [h1, h2]
      omega
    have hres : pollTick now s = (performAutomaticBackup now s, true) := by
      simp only [pollTick, henabled, if_true, checkAndBackup, if_pos hcond]
    rw [hres]
    exact ⟨rfl, rfl, rfl⟩

/-- Witness for `scheduler_tick_fires_iff`: an armed state with
`interval = 1` and `lastBackup = 100000 - 61000`, polled at 100000. -/
theorem scheduler_tick_fires_iff_witness :
    ((pollTick 100000
        { config := { enabled := true, interval := 1, lastBackup := 39000,
                      maxBackups := 5 },
          history := [] }).2 = true ↔
      (1 : Int) * 60000 ≤ 100000 - 39000) ∧
    ((1 : Int) = 1 → (39000 : Int) = 100000 - 61000 →
      (pollTick 100000
        { config := { enabled := true, interval := 1, lastBackup := 39000,
                      maxBackups := 5 },
          history := [] }).2 = true ∧
      (pollTick 100000
        { config := { enabled := true, interval := 1, lastBackup := 39000,
                      maxBackups := 5 },
          history := [] }).1.config.lastBackup = 100000 ∧
      (pollTick 100000
        { config := { enabled := true, interval := 1, lastBackup := 39000,
                      maxBackups := 5 },
          history := [] }).1.history =
        { timestamp := 100000, filename := backupFilename 100000 } ::
          jsSliceTo ([] : List HistoryEntry) ((5 : Int) - 1)) :=
  scheduler_tick_fires_iff
    { config := { enabled := true, interval := 1, lastBackup := 39000,
                  maxBackups := 5 },
      history := [] } 100000 rfl

/-- C8.  Toggling the disabled scheduler on arms it and stamps
`lastBackup` with the current time, so a poll tick arriving within the
polling granularity (less than 60000 ms later, with any interval of at
least one minute) does not fire; toggling the armed scheduler off
disarms it and leaves `lastBackup` unchanged. -/
theorem arming_stamps_lastBackup (cfg : BackupConfig) (now now2 now3 : Int)
    (hist : List HistoryEntry)
    (hoff : cfg.enabled = false) (hint : 1 ≤ cfg.interval)
    (hsoon : now2 - now < 60000) :
    (toggleAutomaticBackup now cfg).enabled = true ∧
    (toggleAutomaticBackup now cfg).lastBackup = now ∧
    (pollTick now2
      { config := toggleAutomaticBackup now cfg, history := hist }).2 = false ∧
    (toggleAutomaticBackup now3 (toggleAutomaticBackup now cfg)).enabled =
      false ∧
    (toggleAutomaticBackup now3 (toggleAutomaticBackup now cfg)).lastBackup =
      now := by
  have ht1e : (toggleAutomaticBackup now cfg).enabled = true := by
    simp [toggleAutomaticBackup, hoff]
  have ht1l : (toggleAutomaticBackup now cfg).lastBackup = now := by
    simp [toggleAutomaticBackup, hoff]
  have ht1i : (toggleAutomaticBackup now cfg).interval = cfg.interval := rfl
  refine ⟨ht1e, ht1l, ?_, ?_, ?_⟩
  · have heq : cfg.interval * 60 * 1000 = cfg.interval * 60000 := by ring
    have hc : ¬ (cfg.interval * 60 * 1000 ≤ now2 - now) := by
      rw [heq]
      omega
    simp only [pollTick, checkAndBackup, ht1e, ht1l, ht1i, if_true, hc, if_false]
  · simp [toggleAutomaticBackup, hoff]
  · simp [toggleAutomaticBackup, hoff]

/-- Witness for `arming_stamps_lastBackup`: arming the initial
configuration at time 1000, polling at 2000, disarming at 3000. -/
theorem arming_stamps_lastBackup_witness :
    (toggleAutomaticBackup 1000 initialBackupConfig).enabled = true ∧
    (toggleAutomaticBackup 1000 initialBackupConfig).lastBackup = 1000 ∧
    (pollTick 2000
      { config := toggleAutomaticBackup 1000 initialBackupConfig,
        history := [] }).2 = false ∧
    (toggleAutomaticBackup 3000
      (toggleAutomaticBackup 1000 initialBackupConfig)).enabled = false ∧
    (toggleAutomaticBackup 3000
      (toggleAutomaticBackup 1000 initialBackupConfig)).lastBackup = 1000 :=
  arming_stamps_lastBackup initialBackupConfig 1000 2000 3000 []
    rfl (by decide) (by decide)

/-! ## Id generation (C7) -/

/-- Packing a character list into a string is injective. -/
theorem asString_inj (l1 l2 : List Char) (h : l1.asString = l2.asString) :
    l1 = l2 := by
  have h2 := congrArg String.data h
  simpa [List.asString] using h2

/-- The function `Nat.digitChar` is injective below 10. -/
theorem digitChar_inj_lt : ∀ a : Nat, a < 10 → ∀ b : Nat, b < 10 →
    Nat.digitChar a = Nat.digitChar b → a = b := by decide

/-- Mapping `Nat.digitChar` over digit lists is injective. -/
theorem map_digitChar_inj (l1 : List Nat) : ∀ l2 : List Nat,
    (∀ x ∈ l1, x < 10) → (∀ x ∈ l2, x < 10) →
    l1.map Nat.digitChar = l2.map Nat.digitChar → l1 = l2 := by
  induction l1 with
  | nil =>
      intro l2 _ _ h
      cases l2 with
      | nil => rfl
      | cons b l2 => simp at h
  | cons a l1 ih =>
      intro l2 h1 h2 h
      cases l2 with
      | nil => simp at h
      | cons b l2 =>
          simp only [List.map_cons, List.cons.injEq] at h
          have hab := digitChar_inj_lt a (h1 a (List.mem_cons_self a l1)) b
            (h2 b (List.mem_cons_self b l2)) h.1
          subst hab
          rw [ih l2 (fun x hx => h1 x (List.mem_cons_of_mem a hx))
              (fun x hx => h2 x (List.mem_cons_of_mem a hx)) h.2]

/-- Every digit of a decimal expansion is below 10. -/
theorem digits_mem_lt (n : Nat) : ∀ x ∈ Nat.digits 10 n, x < 10 :=
  fun _ hx => Nat.digits_lt_base (by norm_num) hx

/-- A positive number has a nonempty, non-`[0]` decimal expansion. -/
theorem digits_ne_zero_list (n : Nat) (hn : n ≠ 0) : Nat.digits 10 n ≠ [0] := by
  intro h
  have h2 := Nat.ofDigits_digits 10 n
  rw [h] at h2
  simp [Nat.ofDigits] at h2
  exact hn h2.symm

/-- The decimal string of a natural number determines it:
`Date.now().toString()` collides only for equal timestamps. -/
theorem decimalString_injective : Function.Injective decimalString := by
  intro m n h
  unfold decimalString at h
  by_cases hm : m = 0 <;> by_cases hn : n = 0
  · rw [hm, hn]
  · rw [if_pos hm, if_neg hn] at h
    exfalso
    have h2 : ([ (Char.ofNat 48) ] : List Char) =
        ((Nat.digits 10 n).reverse.map Nat.digitChar) := by
      apply asString_inj
      exact h
    have hlen : (Nat.digits 10 n).reverse.length = 1 := by
      have h3 := congrArg List.length h2
      simpa using h3.symm
    obtain ⟨d, hrev⟩ := List.length_eq_one.mp hlen
    have hdig : Nat.digits 10 n = [d] := by
      have := congrArg List.reverse hrev
      simpa using this
    have hmem : d < 10 := digits_mem_lt n d (by rw [hdig]; exact List.mem_singleton.mpr rfl)
    have hchar : Nat.digitChar d = Char.ofNat 48 := by
      rw [hrev] at h2
      simpa using h2.symm
    have hd0 : d = 0 := by
      have : Nat.digitChar d = Nat.digitChar 0 := by
        rw [hchar]
        rfl
      exact digitChar_inj_lt d hmem 0 (by norm_num) this
    exact digits_ne_zero_list n hn (hd0 ▸ hdig)
  · rw [if_neg hm, if_pos hn] at h
    exfalso
    have h2 : ([ (Char.ofNat 48) ] : List Char) =
        ((Nat.digits 10 m).reverse.map Nat.digitChar) := by
      apply asString_inj
      exact h.symm
    have hlen : (Nat.digits 10 m).reverse.length = 1 := by
      have h3 := congrArg List.length h2
      simpa using h3.symm
    obtain ⟨d, hrev⟩ := List.length_eq_one.mp hlen
    have hdig : Nat.digits 10 m = [d] := by
      have := congrArg List.reverse hrev
      simpa using this
    have hmem : d < 10 := digits_mem_lt m d (by rw [hdig]; exact List.mem_singleton.mpr rfl)
    have hchar : Nat.digitChar d = Char.ofNat 48 := by
      rw [hrev] at h2
      simpa using h2.symm
    have hd0 : d = 0 := by
      have : Nat.digitChar d = Nat.digitChar 0 := by
        rw [hchar]
        rfl
      exact digitChar_inj_lt d hmem 0 (by norm_num) this
    exact digits_ne_zero_list m hm (hd0 ▸ hdig)
  · rw [if_neg hm, if_neg hn] at h
    have h2 := asString_inj _ _ h
    have h3 := map_digitChar_inj _ _
      (fun x hx => digits_mem_lt m x (List.mem_reverse.mp hx))
      (fun x hx => digits_mem_lt n x (List.mem_reverse.mp hx)) h2
    have h4 := List.reverse_injective h3
    exact Nat.digits_inj_iff.mp h4

/-- The decimal string of a natural number is never empty. -/
theorem decimalString_ne_empty (n : Nat) : decimalString n ≠ "" := by
  unfold decimalString
  by_cases hn : n = 0
  · rw [if_pos hn]
    decide
  · rw [if_neg hn]
    intro h
    have h2 := asString_inj _ [] h
    simp only [List.map_eq_nil_iff, List.reverse_eq_nil_iff] at h2
    exact Nat.digits_ne_nil_iff_ne_zero.mpr hn h2

/-- The id invariant is monotone in the clock bound. -/
theorem IdState_mono (c c2 : Nat) (ps : List Patient) (h : IdState c ps)
    (hle : c ≤ c2) : IdState c2 ps := by
  obtain ⟨h1, h2⟩ := h
  refine ⟨h1, fun p hp => ?_⟩
  obtain ⟨⟨t, ht, hid⟩, hnodup, hmm⟩ := h2 p hp
  refine ⟨⟨t, lt_of_lt_of_le ht hle, hid⟩, hnodup, fun m hm => ?_⟩
  obtain ⟨t2, ht2, hid2⟩ := hmm m hm
  exact ⟨t2, lt_of_lt_of_le ht2 hle, hid2⟩

/-- An id stamped strictly below the clock differs from the freshly
stamped one. -/
theorem stamped_id_ne (t n : Nat) (ht : t < n) :
    decimalString t ≠ decimalString n :=
  fun h => absurd (decimalString_injective h) (by omega)

/-- Adding a patient at a time at or past the clock preserves the id
invariant (with the clock advanced past the stamp). -/
theorem IdState_addP (c n : Nat) (ps : List Patient) (draft : Patient)
    (h : IdState c ps) (hcn : c ≤ n) :
    IdState (n + 1) ((addPatient none draft n ps).1) := by
  unfold addPatient
  by_cases hv : draft.name = "" ∨ draft.mobile = "" ∨ draft.place = ""
  · rw [if_pos hv]
    exact IdState_mono c (n + 1) ps h (by omega)
  · rw [if_neg hv]
    obtain ⟨h1, h2⟩ := h
    constructor
    · show (List.map Patient.id
        (ps ++ [{ draft with id := decimalString n, medications := [] }])).Nodup
      rw [List.map_append, List.nodup_append]
      refine ⟨h1, List.nodup_singleton _, ?_⟩
      intro x hx hy
      obtain ⟨p, hp, hpx⟩ := List.mem_map.mp hx
      obtain ⟨⟨t, ht, hid⟩, _, _⟩ := h2 p hp
      have hxn : x = decimalString n := List.mem_singleton.mp hy
      exact stamped_id_ne t n (by omega) (hid ▸ hpx ▸ hxn ▸ rfl)
    · intro p hp
      rcases List.mem_append.mp hp with hmem | hmem
      · obtain ⟨⟨t, ht, hid⟩, hnodup, hmm⟩ := h2 p hmem
        refine ⟨⟨t, by omega, hid⟩, hnodup, fun m hm => ?_⟩
        obtain ⟨t2, ht2, hid2⟩ := hmm m hm
        exact ⟨t2, by omega, hid2⟩
      · have hpe := List.mem_singleton.mp hmem
        subst hpe
        exact ⟨⟨n, by omega, rfl⟩, List.nodup_nil, fun m hm => absurd hm
          (List.not_mem_nil m)⟩

/-- Adding a medication at a time at or past the clock preserves the id
invariant (with the clock advanced past the stamp). -/
theorem IdState_addM (c n : Nat) (ps : List Patient) (pid : String)
    (draft : Medication) (h : IdState c ps) (hcn : c ≤ n) :
    IdState (n + 1) ((addMedication pid draft n ps).1) := by
  unfold addMedication
  by_cases hv : draft.description = ""
  · rw [if_pos hv]
    exact IdState_mono c (n + 1) ps h (by omega)
  · rw [if_neg hv]
    obtain ⟨h1, h2⟩ := h
    constructor
    · show (List.map Patient.id (ps.map _)).Nodup
      rw [List.map_map]
      have heq : ∀ p ∈ ps, (Patient.id ∘ fun p => if p.id = pid then
          { p with medications := p.medications ++
              [{ draft with id := decimalString n }] } else p) p = Patient.id p := by
        intro p _
        by_cases hpid : p.id = pid
        · simp only [Function.comp_apply, if_pos hpid]
        · simp only [Function.comp_apply, if_neg hpid]
      rw [List.map_congr_left heq]
      exact h1
    · intro p2 hp2
      obtain ⟨p, hp, rfl⟩ := List.mem_map.mp hp2
      obtain ⟨⟨t, ht, hid⟩, hnodup, hmm⟩ := h2 p hp
      by_cases hpid : p.id = pid
      · rw [if_pos hpid]
        refine ⟨⟨t, by omega, hid⟩, ?_, ?_⟩
        · show (List.map Medication.id (p.medications ++
            [{ draft with id := decimalString n }])).Nodup
          rw [List.map_append, List.nodup_append]
          refine ⟨hnodup, List.nodup_singleton _, ?_⟩
          intro x hx hy
          obtain ⟨m, hm, hmx⟩ := List.mem_map.mp hx
          obtain ⟨t2, ht2, hid2⟩ := hmm m hm
          have hxn : x = decimalString n := List.mem_singleton.mp hy
          exact stamped_id_ne t2 n (by omega) (hid2 ▸ hmx ▸ hxn ▸ rfl)
        · intro m hm
          rcases List.mem_append.mp hm with hmem | hmem
          · obtain ⟨t2, ht2, hid2⟩ := hmm m hmem
            exact ⟨t2, by omega, hid2⟩
          · have hme := List.mem_singleton.mp hmem
            subst hme
            exact ⟨n, by omega, rfl⟩
      · rw [if_neg hpid]
        refine ⟨⟨t, by omega, hid⟩, hnodup, fun m hm => ?_⟩
        obtain ⟨t2, ht2, hid2⟩ := hmm m hm
        exact ⟨t2, by omega, hid2⟩

/-- Folding a sequence of add operations whose timestamps are strictly
increasing and at or past the clock preserves the id invariant. -/
theorem runOps_good (ops : List ClinicOp) : ∀ (c : Nat) (ps : List Patient),
    IdState c ps → (∀ o ∈ ops, c ≤ opTime o) →
    (ops.map opTime).Pairwise (· < ·) →
    ∃ c2, IdState c2 (ops.foldl applyOp ps) := by
  induction ops with
  | nil =>
      intro c ps h _ _
      exact ⟨c, h⟩
  | cons o rest ih =>
      intro c ps h hbound hpair
      simp only [List.foldl_cons]
      have hstep : IdState (opTime o + 1) (applyOp ps o) := by
        cases o with
        | addP draft n =>
            exact IdState_addP c n ps draft h
              (hbound _ (List.mem_cons_self _ _))
        | addM pid draft n =>
            exact IdState_addM c n ps pid draft h
              (hbound _ (List.mem_cons_self _ _))
      simp only [List.map_cons, List.pairwise_cons] at hpair
      refine ih (opTime o + 1) (applyOp ps o) hstep ?_ hpair.2
      intro o2 ho2
      have := hpair.1 (opTime o2) (List.mem_map_of_mem _ ho2)
      omega

/-- C7 (amended).  Provided no two add operations observe the same
`Date.now()` millisecond (the observed timestamps are strictly
increasing, as they are along any real run where the clock ticks
between operations), any sequence of add-patient and add-medication
operations from the empty collection yields distinct non-empty patient
ids and, within each patient, distinct medication ids. -/
theorem add_operations_ids_distinct (ops : List ClinicOp)
    (hts : (ops.map opTime).Pairwise (· < ·)) :
    ((runOps ops).map Patient.id).Nodup ∧
    ∀ p ∈ runOps ops, p.id ≠ "" ∧ (p.medications.map Medication.id).Nodup := by
  obtain ⟨c2, h⟩ := runOps_good ops 0 []
    ⟨List.nodup_nil, fun p hp => absurd hp (List.not_mem_nil p)⟩
    (fun o _ => Nat.zero_le _) hts
  obtain ⟨h1, h2⟩ := h
  refine ⟨h1, fun p hp => ?_⟩
  obtain ⟨⟨t, _, hid⟩, hnodup, _⟩ := h2 p hp
  exact ⟨hid ▸ decimalString_ne_empty t, hnodup⟩

/-- Witness for `add_operations_ids_distinct`: two patient adds at
distinct times. -/
theorem add_operations_ids_distinct_witness :
    ((runOps [ClinicOp.addP ashaPatient 3, ClinicOp.addP raviDraft 4]).map
      Patient.id).Nodup ∧
    ∀ p ∈ runOps [ClinicOp.addP ashaPatient 3, ClinicOp.addP raviDraft 4],
      p.id ≠ "" ∧ (p.medications.map Medication.id).Nodup :=
  add_operations_ids_distinct
    [ClinicOp.addP ashaPatient 3, ClinicOp.addP raviDraft 4] (by decide)

/-- C7 counterexample.  Two add-patient operations that observe the same
`Date.now()` value (two clicks in the same millisecond, here time 5)
produce two patients with the same id `"5"`: the collection's ids are
not distinct, refuting the claim for arbitrary add sequences. -/
theorem same_millisecond_ids_collide :
    ¬ ((runOps [ClinicOp.addP ashaPatient 5, ClinicOp.addP raviDraft 5]).map
        Patient.id).Nodup := by
  simp [runOps, applyOp, addPatient, ashaPatient, raviDraft]
